import Mathlib

/-!
Shallow embedding of `internal/core/config.go` of the fleek repository.

The configuration model, the validation engine and the mutation operations
are pure and are translated directly.  The persistence layer (`Save`,
`Eject`, `WriteSampleConfig`) performs file I/O through the yaml library
and `os`; it is embedded by threading an explicit file-system state that
records what is stored at the canonical configuration location
(`Location()` is an external collaborator that resolves the path, so the
state keeps just the content at that one location).  Marshalling a config
through the yaml double round-trip is represented abstractly by the
`FileData.rendered` constructor: a write stores the configuration value
that was serialized.  I/O failures (file creation, symlink creation,
marshalling) are not modelled; every write succeeds.
-/

namespace Fleek

/-- Enumerated value lists, from the package-level `var` block. -/
def operatingSystems : List String := ["linux", "darwin"]

def architectures : List String := ["aarch64", "x86_64"]

def shells : List String := ["bash", "zsh"]

def blingLevels : List String := ["low", "default", "high"]

/-- The `GitConfig` struct: git identity embedded in a `System`. -/
structure GitConfig where
  Name : String
  Email : String
deriving DecidableEq

/-- The `System` struct: one managed machine/user pairing. -/
structure System where
  Hostname : String
  Username : String
  Arch : String
  OS : String
  Git : GitConfig
deriving DecidableEq

/-- The method `System.HomeDir`: `/Users/<user>` on darwin, `/home/<user>` otherwise. -/
def System.HomeDir (s : System) : String :=
  (if s.OS = "darwin" then "/Users" else "/home") ++ "/" ++ s.Username

/-- The `Config` struct: the root configuration entity.  The Go
`map[string]string` of aliases is embedded as an association list. -/
structure Config where
  FlakeDir : String
  Unfree : Bool
  Shell : String
  Bling : String
  Repository : String
  Name : String
  Packages : List String
  Programs : List String
  Aliases : List (String × String)
  Paths : List String
  Ejected : Bool
  Systems : List System
deriving DecidableEq

/-- The error values returned by the config subsystem, one constructor per
`errors.New` value (plus the ad-hoc "cowardly refusing to overwrite" error
of `WriteSampleConfig`). -/
inductive Err where
  | missingFlakeDir
  | invalidShell
  | invalidBling
  | invalidArch
  | invalidOS
  | packageNotFound
  | programNotFound
  | refuseOverwrite
deriving DecidableEq

/-- The helper `isValueInList`: linear scan, comparing each element of the
list to the value. -/
def isValueInList (value : String) : List String → Bool
  | [] => false
  | v :: rest => if v == value then true else isValueInList value rest

/-- The `for _, sys := range c.Systems` loop inside `Validate`: for each
system, architecture is checked before OS, and the first violation is
returned. -/
def validateSystems : List System → Option Err
  | [] => none
  | sys :: rest =>
    if !(isValueInList sys.Arch architectures) then some Err.invalidArch
    else if !(isValueInList sys.OS operatingSystems) then some Err.invalidOS
    else validateSystems rest

/-- The method `Config.Validate`: flakedir presence, then shell membership,
then bling membership, then the per-system loop.  `none` is Go's `nil`
(OK). -/
def Config.Validate (c : Config) : Option Err :=
  if c.FlakeDir == "" then some Err.missingFlakeDir
  else if !(isValueInList c.Shell shells) then some Err.invalidShell
  else if !(isValueInList c.Bling blingLevels) then some Err.invalidBling
  else validateSystems c.Systems

/-- Content stored at the canonical configuration file location: either
pre-existing opaque bytes, or the serialized form of a configuration (the
yaml double round-trip of `Save`/`Eject`/`WriteSampleConfig` is abstracted
to the configuration value it renders). -/
inductive FileData where
  | raw (bytes : String)
  | rendered (c : Config)
deriving DecidableEq

/-- Mutable state of one command invocation: the in-memory configuration
(the receiver `c *Config`) together with the content at the canonical
on-disk location resolved by the external collaborator `Location()`
(`none` = no file there). -/
structure MState where
  config : Config
  cfile : Option FileData
deriving DecidableEq

/-- The method `Config.Save`: resolves the location, marshals through the
yaml double round-trip and writes the result.  In the embedding the write
always succeeds and stores the rendered configuration. -/
def Save (s : MState) : MState × Option Err :=
  ({ s with cfile := some (FileData.rendered s.config) }, none)

/-- The method `Config.AddPackage`: scan for the name; if found return nil
without any change, otherwise append, validate, and save. -/
def AddPackage (s : MState) (pack : String) : MState × Option Err :=
  if isValueInList pack s.config.Packages then (s, none)
  else
    let c' := { s.config with Packages := s.config.Packages ++ [pack] }
    match c'.Validate with
    | some e => ({ s with config := c' }, some e)
    | none => Save { s with config := c' }

/-- The index-finding loop of `RemovePackage`/`RemoveProgram`: index of the
first element equal to the name, `none` when absent. -/
def findIndex (x : String) : List String → Option Nat
  | [] => none
  | p :: rest => if p == x then some 0 else Option.map (fun i => i + 1) (findIndex x rest)

/-- The method `Config.RemovePackage`: find the first occurrence; if absent
return `ErrPackageNotFound`, otherwise splice it out
(`append(c.Packages[:index], c.Packages[index+1:]...)`), validate, save. -/
def RemovePackage (s : MState) (pack : String) : MState × Option Err :=
  match findIndex pack s.config.Packages with
  | none => (s, some Err.packageNotFound)
  | some index =>
    let c' := { s.config with Packages := s.config.Packages.eraseIdx index }
    match c'.Validate with
    | some e => ({ s with config := c' }, some e)
    | none => Save { s with config := c' }

/-- The method `Config.RemoveProgram`: same as `RemovePackage` over the
program list, with `ErrProgramNotFound`. -/
def RemoveProgram (s : MState) (prog : String) : MState × Option Err :=
  match findIndex prog s.config.Programs with
  | none => (s, some Err.programNotFound)
  | some index =>
    let c' := { s.config with Programs := s.config.Programs.eraseIdx index }
    match c'.Validate with
    | some e => ({ s with config := c' }, some e)
    | none => Save { s with config := c' }

/-- The method `Config.AddProgram`: unconditional append, then validate,
then save. -/
def AddProgram (s : MState) (prog : String) : MState × Option Err :=
  let c' := { s.config with Programs := s.config.Programs ++ [prog] }
  match c'.Validate with
  | some e => ({ s with config := c' }, some e)
  | none => Save { s with config := c' }

/-- The method `Config.Eject`: set `Ejected = true`, marshal, and write
directly to the canonical location.  No validation runs. -/
def Eject (s : MState) : MState × Option Err :=
  let c' := { s.config with Ejected := true }
  ({ config := c', cfile := some (FileData.rendered c') }, none)

/-- The sample configuration literal built inside `WriteSampleConfig`.  The
`System` produced by `NewSystem` reads the execution environment (username,
hostname, runtime arch/OS), so it is passed in as a parameter. -/
def sampleConfig (location : String) (sys : System) : Config :=
  { FlakeDir := location
    Unfree := true
    Shell := "bash"
    Bling := "default"
    Repository := ""
    Name := "My Fleek Configuration"
    Packages := ["helix"]
    Programs := ["dircolors"]
    Aliases := [("cdfleek", "cd ~/.config/home-manager")]
    Paths := ["$HOME/bin", "$HOME/.local/bin"]
    Ejected := false
    Systems := [sys] }

/-- The function `WriteSampleConfig`: after resolving the location and
making the flake directory (directory creation does not touch the config
file and is not modelled), it stats the target file and writes the sample
configuration only when `force` is set or the file does not exist;
otherwise it returns the "cowardly refusing to overwrite" error.  The
symlink created on success lives at a different path and is outside this
state.  The first component of the result is the content at the canonical
location afterwards. -/
def WriteSampleConfig (cfile : Option FileData) (location : String) (sys : System)
    (force : Bool) : Option FileData × Option Err :=
  if force || cfile.isNone then
    (some (FileData.rendered (sampleConfig location sys)), none)
  else
    (cfile, some Err.refuseOverwrite)

/-- A small valid configuration used to instantiate theorems on concrete
inputs: every enumerated field is legal and both name lists are
duplicate-free. -/
def cfgA : Config :=
  { FlakeDir := ".fleek"
    Unfree := false
    Shell := "bash"
    Bling := "default"
    Repository := ""
    Name := "example"
    Packages := ["helix"]
    Programs := ["direnv"]
    Aliases := []
    Paths := []
    Ejected := false
    Systems := [{ Hostname := "host"
                  Username := "user"
                  Arch := "x86_64"
                  OS := "linux"
                  Git := { Name := "Jane Doe", Email := "jane@example.com" } }] }

/-- State holding `cfgA` in memory with no file on disk yet. -/
def stA : MState := { config := cfgA, cfile := none }

/-- The same configuration with an illegal shell value. -/
def cfgBad : Config := { cfgA with Shell := "fish" }

/-- State holding the invalid-shell configuration. -/
def stBad : MState := { config := cfgBad, cfile := none }

/-- A configuration whose package and program lists contain duplicates. -/
def cfgDup : Config := { cfgA with Packages := ["a", "b", "a"], Programs := ["p", "p"] }

/-- State holding the duplicate-bearing configuration. -/
def stDup : MState := { config := cfgDup, cfile := none }

/-- A configuration with several simultaneously invalid fields: empty-string
shell, illegal bling level, and a system with an illegal architecture. -/
def cfgMulti : Config :=
  { cfgA with Shell := "csh", Bling := "max",
              Systems := [{ Hostname := "h"
                            Username := "u"
                            Arch := "riscv"
                            OS := "plan9"
                            Git := { Name := "n", Email := "e" } }] }

/-- Whether one `System` passes both membership checks of the validation
loop. -/
def SystemOK (s : System) : Prop :=
  s.Arch ∈ architectures ∧ s.OS ∈ operatingSystems

instance (s : System) : Decidable (SystemOK s) := by
  unfold SystemOK
  infer_instance

/- ### Bridging lemmas between the boolean scans and list membership -/

theorem isValueInList_iff (value : String) (l : List String) :
    isValueInList value l = true ↔ value ∈ l := by
  induction l with
  | nil => simp [isValueInList]
  | cons v rest ih =>
    simp only [isValueInList, List.mem_cons]
    by_cases h : v = value
    · simp [h]
    · have hb : (v == value) = false := beq_eq_false_iff_ne.mpr h
      simp [hb, ih, Ne.symm h]

theorem isValueInList_eq_false_iff (value : String) (l : List String) :
    isValueInList value l = false ↔ value ∉ l := by
  constructor
  · intro h hmem
    have := (isValueInList_iff value l).mpr hmem
    rw [h] at this
    cases this
  · intro h
    cases hb : isValueInList value l
    · rfl
    · exact absurd ((isValueInList_iff value l).mp hb) h

theorem findIndex_eq_none_of_not_mem (x : String) (l : List String) (h : x ∉ l) :
    findIndex x l = none := by
  induction l with
  | nil => rfl
  | cons p rest ih =>
    have hp : (p == x) = false :=
      beq_eq_false_iff_ne.mpr (fun hpx => h (List.mem_cons.mpr (Or.inl hpx.symm)))
    simp [findIndex, hp, ih (fun hm => h (List.mem_cons_of_mem p hm))]

theorem findIndex_append_cons (x : String) (pre post : List String) (h : x ∉ pre) :
    findIndex x (pre ++ x :: post) = some pre.length := by
  induction pre with
  | nil => simp [findIndex]
  | cons p rest ih =>
    have hp : (p == x) = false :=
      beq_eq_false_iff_ne.mpr (fun hpx => h (List.mem_cons.mpr (Or.inl hpx.symm)))
    simp [findIndex, hp, ih (fun hm => h (List.mem_cons_of_mem p hm))]

theorem eraseIdx_append_cons (x : String) (pre post : List String) :
    (pre ++ x :: post).eraseIdx pre.length = pre ++ post := by
  induction pre with
  | nil => rfl
  | cons p rest ih => simp [List.eraseIdx, ih]

/-- C9: for every `System`, `HomeDir` is `/Users/<user>` exactly when the OS
field is `darwin`, and `/home/<user>` for every other OS value. -/
theorem homeDir_correct (s : System) :
    (s.OS = "darwin" → s.HomeDir = "/Users/" ++ s.Username)
  ∧ (s.OS ≠ "darwin" → s.HomeDir = "/home/" ++ s.Username) := by
  have h1 : ("/Users" ++ "/" : String) = "/Users/" := rfl
  have h2 : ("/home" ++ "/" : String) = "/home/" := rfl
  constructor
  · intro h
    simp [System.HomeDir, h, h1]
  · intro h
    simp [System.HomeDir, h, h2]

/-- C9 witness: `HomeDir` evaluated on a darwin system and on a linux
system. -/
theorem homeDir_correct_witness :
    System.HomeDir { Hostname := "h", Username := "u", Arch := "aarch64",
                     OS := "darwin", Git := { Name := "n", Email := "e" } } = "/Users/u"
  ∧ System.HomeDir { Hostname := "h", Username := "u", Arch := "x86_64",
                     OS := "linux", Git := { Name := "n", Email := "e" } } = "/home/u" :=
  ⟨(homeDir_correct _).1 (by decide),
   (homeDir_correct _).2 (by decide)⟩

/-- C8: with `force = false` and a file already present at the canonical
location, `WriteSampleConfig` returns the refuse-to-overwrite error and the
stored content is unchanged. -/
theorem writeSampleConfig_refuses_overwrite (d : FileData) (location : String) (sys : System) :
    WriteSampleConfig (some d) location sys false = (some d, some Err.refuseOverwrite) := rfl

/-- C8 witness: refusal on a concrete pre-existing file, which keeps its
exact content. -/
theorem writeSampleConfig_refuses_overwrite_witness :
    WriteSampleConfig (some (FileData.raw "old-bytes")) ".fleek"
        { Hostname := "h", Username := "u", Arch := "x86_64", OS := "linux",
          Git := { Name := "n", Email := "e" } } false
      = (some (FileData.raw "old-bytes"), some Err.refuseOverwrite) :=
  writeSampleConfig_refuses_overwrite (FileData.raw "old-bytes") ".fleek"
    { Hostname := "h", Username := "u", Arch := "x86_64", OS := "linux",
      Git := { Name := "n", Email := "e" } }

/-- C6: `RemovePackage` on an absent name returns `ErrPackageNotFound` with
the whole state (configuration and file) unchanged; `RemoveProgram` on an
absent name likewise returns `ErrProgramNotFound`. -/
theorem remove_absent_not_found (s : MState) (name : String) :
    (name ∉ s.config.Packages → RemovePackage s name = (s, some Err.packageNotFound))
  ∧ (name ∉ s.config.Programs → RemoveProgram s name = (s, some Err.programNotFound)) := by
  constructor
  · intro h
    simp [RemovePackage, findIndex_eq_none_of_not_mem name _ h]
  · intro h
    simp [RemoveProgram, findIndex_eq_none_of_not_mem name _ h]

/-- C6 witness: removing a name absent from both lists of a concrete
configuration. -/
theorem remove_absent_not_found_witness :
    RemovePackage stA "nope" = (stA, some Err.packageNotFound)
  ∧ RemoveProgram stA "nope" = (stA, some Err.programNotFound) :=
  ⟨(remove_absent_not_found stA "nope").1 (by decide),
   (remove_absent_not_found stA "nope").2 (by decide)⟩

/-- C10: when the stored list is `pre ++ name :: post` with `name` not in
`pre`, removal deletes exactly the first occurrence: the resulting list is
`pre ++ post`, so any later duplicates inside `post` survive. -/
theorem remove_first_occurrence_only (s : MState) (name : String) (pre post : List String) :
    (s.config.Packages = pre ++ name :: post → name ∉ pre →
       (RemovePackage s name).1.config.Packages = pre ++ post)
  ∧ (s.config.Programs = pre ++ name :: post → name ∉ pre →
       (RemoveProgram s name).1.config.Programs = pre ++ post) := by
  constructor
  · intro heq hpre
    have hfi : findIndex name s.config.Packages = some pre.length := by
      rw [heq]
      exact findIndex_append_cons name pre post hpre
    have her : s.config.Packages.eraseIdx pre.length = pre ++ post := by
      rw [heq]
      exact eraseIdx_append_cons name pre post
    simp only [RemovePackage, hfi]
    split
    · simp [her]
    · simp [Save, her]
  · intro heq hpre
    have hfi : findIndex name s.config.Programs = some pre.length := by
      rw [heq]
      exact findIndex_append_cons name pre post hpre
    have her : s.config.Programs.eraseIdx pre.length = pre ++ post := by
      rw [heq]
      exact eraseIdx_append_cons name pre post
    simp only [RemoveProgram, hfi]
    split
    · simp [her]
    · simp [Save, her]

/-- C10 witness: on lists with duplicates, exactly the first occurrence
disappears. -/
theorem remove_first_occurrence_only_witness :
    (RemovePackage stDup "a").1.config.Packages = ["b", "a"]
  ∧ (RemoveProgram stDup "p").1.config.Programs = ["p"] :=
  ⟨(remove_first_occurrence_only stDup "a" [] ["b", "a"]).1 rfl (by decide),
   (remove_first_occurrence_only stDup "p" [] ["p"]).2 rfl (by decide)⟩

/- ### Shape lemmas for the mutation operations -/

theorem addPackage_mem (s : MState) (name : String) (h : name ∈ s.config.Packages) :
    AddPackage s name = (s, none) := by
  simp [AddPackage, (isValueInList_iff name s.config.Packages).mpr h]

theorem addPackage_not_mem_config (s : MState) (name : String) (h : name ∉ s.config.Packages) :
    (AddPackage s name).1.config = { s.config with Packages := s.config.Packages ++ [name] } := by
  simp only [AddPackage, (isValueInList_eq_false_iff name s.config.Packages).mpr h,
    Bool.false_eq_true, if_false]
  split
  · rfl
  · simp [Save]

theorem addProgram_config (s : MState) (name : String) :
    (AddProgram s name).1.config = { s.config with Programs := s.config.Programs ++ [name] } := by
  simp only [AddProgram]
  split
  · rfl
  · simp [Save]

theorem removePackage_found_config (s : MState) (name : String) (i : Nat)
    (h : findIndex name s.config.Packages = some i) :
    (RemovePackage s name).1.config
      = { s.config with Packages := s.config.Packages.eraseIdx i } := by
  simp only [RemovePackage, h]
  split
  · rfl
  · simp [Save]

theorem removeProgram_found_config (s : MState) (name : String) (i : Nat)
    (h : findIndex name s.config.Programs = some i) :
    (RemoveProgram s name).1.config
      = { s.config with Programs := s.config.Programs.eraseIdx i } := by
  simp only [RemoveProgram, h]
  split
  · rfl
  · simp [Save]

/-- Validation reads only the flake directory, shell, bling and systems
fields, so replacing the program list never changes its outcome. -/
theorem validate_ignores_programs (c : Config) (p : List String) :
    Config.Validate { c with Programs := p } = Config.Validate c := rfl

/-- Replacing the package list never changes the validation outcome
either. -/
theorem validate_ignores_packages (c : Config) (p : List String) :
    Config.Validate { c with Packages := p } = Config.Validate c := rfl

/-- C2 counterexample: on a configuration that already contains the
package, two calls of `AddPackage` leave the list at its original length,
not one longer, refuting the universally quantified length statement. -/
theorem addPackage_twice_counterexample :
    ¬ ((AddPackage (AddPackage stA "helix").1 "helix").1.config.Packages.length
        = stA.config.Packages.length + 1) := by decide

/-- C2 amended: when the name is already present, `AddPackage` returns
success with the whole state (configuration and file) untouched; when the
name is not yet present, two consecutive calls leave the package list
exactly one element longer than the original. -/
theorem addPackage_idempotent (s : MState) (name : String) :
    (name ∈ s.config.Packages → AddPackage s name = (s, none))
  ∧ (name ∉ s.config.Packages →
       (AddPackage (AddPackage s name).1 name).1.config.Packages
         = s.config.Packages ++ [name]
       ∧ (AddPackage (AddPackage s name).1 name).1.config.Packages.length
         = s.config.Packages.length + 1) := by
  constructor
  · exact addPackage_mem s name
  · intro h
    have hc := addPackage_not_mem_config s name h
    have hmem : name ∈ (AddPackage s name).1.config.Packages := by
      rw [hc]
      exact List.mem_append.mpr (Or.inr (List.mem_singleton.mpr rfl))
    have h2 := addPackage_mem (AddPackage s name).1 name hmem
    rw [h2]
    simp [hc]

/-- C2 witness: the two amended behaviors on concrete states: a present
name is a success no-op, and an absent name added twice appears once. -/
theorem addPackage_idempotent_witness :
    AddPackage stA "helix" = (stA, none)
  ∧ (AddPackage (AddPackage stA "lazygit").1 "lazygit").1.config.Packages
      = ["helix", "lazygit"] :=
  ⟨(addPackage_idempotent stA "helix").1 (by decide),
   ((addPackage_idempotent stA "lazygit").2 (by decide)).1⟩

/-- C3: whenever the in-memory change of a mutation operation produces a
configuration that fails validation, the operation returns that validation
error while the mutated configuration stays in place (no rollback) and the
file is untouched. -/
theorem mutation_not_rolled_back (s : MState) (name : String) (e : Err) (i : Nat) :
    (isValueInList name s.config.Packages = false →
       Config.Validate { s.config with Packages := s.config.Packages ++ [name] } = some e →
       AddPackage s name
         = ({ s with config := { s.config with Packages := s.config.Packages ++ [name] } },
            some e))
  ∧ (findIndex name s.config.Packages = some i →
       Config.Validate { s.config with Packages := s.config.Packages.eraseIdx i } = some e →
       RemovePackage s name
         = ({ s with config := { s.config with Packages := s.config.Packages.eraseIdx i } },
            some e))
  ∧ (Config.Validate { s.config with Programs := s.config.Programs ++ [name] } = some e →
       AddProgram s name
         = ({ s with config := { s.config with Programs := s.config.Programs ++ [name] } },
            some e))
  ∧ (findIndex name s.config.Programs = some i →
       Config.Validate { s.config with Programs := s.config.Programs.eraseIdx i } = some e →
       RemoveProgram s name
         = ({ s with config := { s.config with Programs := s.config.Programs.eraseIdx i } },
            some e)) := by
  refine ⟨fun h1 hV => ?_, fun h1 hV => ?_, fun hV => ?_, fun h1 hV => ?_⟩
  · simp [AddPackage, h1, hV]
  · simp [RemovePackage, h1, hV]
  · simp [AddProgram, hV]
  · simp [RemoveProgram, h1, hV]

/-- C3 witness: all four mutation operations on a concrete invalid-shell
configuration return the invalid-shell error and leave the mutated lists in
memory. -/
theorem mutation_not_rolled_back_witness :
    AddPackage stBad "fzf"
      = ({ stBad with config := { cfgBad with Packages := ["helix", "fzf"] } },
         some Err.invalidShell)
  ∧ RemovePackage stBad "helix"
      = ({ stBad with config := { cfgBad with Packages := [] } }, some Err.invalidShell)
  ∧ AddProgram stBad "direnv"
      = ({ stBad with config := { cfgBad with Programs := ["direnv", "direnv"] } },
         some Err.invalidShell)
  ∧ RemoveProgram stBad "direnv"
      = ({ stBad with config := { cfgBad with Programs := [] } }, some Err.invalidShell) :=
  ⟨(mutation_not_rolled_back stBad "fzf" Err.invalidShell 0).1 (by decide) (by decide),
   (mutation_not_rolled_back stBad "helix" Err.invalidShell 0).2.1 (by decide) (by decide),
   (mutation_not_rolled_back stBad "direnv" Err.invalidShell 0).2.2.1 (by decide),
   (mutation_not_rolled_back stBad "direnv" Err.invalidShell 0).2.2.2 (by decide) (by decide)⟩

/-- C5: on a configuration that validates, `AddProgram` called twice with
one name succeeds both times and appends both copies: the resulting program
list is the original with the name twice at the end, so the name occurs at
least twice. -/
theorem addProgram_not_idempotent (s : MState) (name : String)
    (h : Config.Validate s.config = none) :
    (AddProgram s name).2 = none
  ∧ (AddProgram (AddProgram s name).1 name).2 = none
  ∧ (AddProgram (AddProgram s name).1 name).1.config.Programs
      = s.config.Programs ++ [name, name]
  ∧ 2 ≤ (AddProgram (AddProgram s name).1 name).1.config.Programs.count name := by
  have hV1 : Config.Validate { s.config with Programs := s.config.Programs ++ [name] } = none := by
    rw [validate_ignores_programs]
    exact h
  have e1 : AddProgram s name
      = ({ config := { s.config with Programs := s.config.Programs ++ [name] },
           cfile := some (FileData.rendered
             { s.config with Programs := s.config.Programs ++ [name] }) }, none) := by
    simp [AddProgram, hV1, Save]
  have hV2 : Config.Validate
      { s.config with Programs := s.config.Programs ++ [name, name] } = none := by
    rw [validate_ignores_programs]
    exact h
  have e2 : AddProgram (AddProgram s name).1 name
      = ({ config := { s.config with Programs := s.config.Programs ++ [name, name] },
           cfile := some (FileData.rendered
             { s.config with Programs := s.config.Programs ++ [name, name] }) }, none) := by
    rw [e1]
    simp [AddProgram, hV2, Save]
  have h2cnt : ([name, name] : List String).count name = 2 := by
    rw [List.count_cons_self, List.count_cons_self, List.count_nil]
  refine ⟨by rw [e1], by rw [e2], by rw [e2], ?_⟩
  rw [e2]
  show 2 ≤ (s.config.Programs ++ [name, name]).count name
  rw [List.count_append, h2cnt]
  exact Nat.le_add_left 2 _

/-- C5 witness: two additions of one program name on a concrete valid
configuration leave two copies in the list. -/
theorem addProgram_not_idempotent_witness :
    (AddProgram (AddProgram stA "zoxide").1 "zoxide").1.config.Programs
      = ["direnv", "zoxide", "zoxide"] :=
  (addProgram_not_idempotent stA "zoxide" (by decide)).2.2.1

/-- C7: `Eject` runs no validation: it unconditionally succeeds, sets the
ejected flag, and writes the ejected configuration to the canonical
location, even when the shell is invalid; under that same invalid shell,
`AddPackage` with a fresh name is stopped by validation, returns the
invalid-shell error, and writes nothing. -/
theorem eject_bypasses_validation (s : MState) (name : String)
    (hsh : s.config.Shell ∉ shells) (hfd : s.config.FlakeDir ≠ "")
    (hname : name ∉ s.config.Packages) :
    Eject s = ({ config := { s.config with Ejected := true },
                 cfile := some (FileData.rendered { s.config with Ejected := true }) }, none)
  ∧ AddPackage s name
      = ({ s with config := { s.config with Packages := s.config.Packages ++ [name] } },
         some Err.invalidShell) := by
  have hV : Config.Validate { s.config with Packages := s.config.Packages ++ [name] }
      = some Err.invalidShell := by
    rw [validate_ignores_packages]
    have h1 : (s.config.FlakeDir == "") = false := beq_eq_false_iff_ne.mpr hfd
    have h2 : isValueInList s.config.Shell shells = false :=
      (isValueInList_eq_false_iff _ _).mpr hsh
    simp [Config.Validate, h1, h2]
  constructor
  · rfl
  · simp [AddPackage, (isValueInList_eq_false_iff name s.config.Packages).mpr hname, hV]

/-- C7 witness: ejecting a concrete invalid-shell configuration succeeds
and writes, while adding a package to it is rejected. -/
theorem eject_bypasses_validation_witness :
    Eject stBad = ({ config := { cfgBad with Ejected := true },
                     cfile := some (FileData.rendered { cfgBad with Ejected := true }) }, none)
  ∧ AddPackage stBad "fzf2"
      = ({ stBad with config := { cfgBad with Packages := ["helix", "fzf2"] } },
         some Err.invalidShell) :=
  ⟨(eject_bypasses_validation stBad "fzf2" (by decide) (by decide) (by decide)).1,
   (eject_bypasses_validation stBad "fzf2" (by decide) (by decide) (by decide)).2⟩

theorem removePackage_none (s : MState) (name : String)
    (h : findIndex name s.config.Packages = none) :
    RemovePackage s name = (s, some Err.packageNotFound) := by
  simp [RemovePackage, h]

theorem removeProgram_none (s : MState) (name : String)
    (h : findIndex name s.config.Programs = none) :
    RemoveProgram s name = (s, some Err.programNotFound) := by
  simp [RemoveProgram, h]

theorem nodup_append_singleton (l : List String) (x : String) (hx : x ∉ l) (hl : l.Nodup) :
    (l ++ [x]).Nodup := by
  rw [List.nodup_append]
  refine ⟨hl, List.nodup_singleton x, ?_⟩
  intro a ha hax
  rw [List.mem_singleton] at hax
  exact hx (hax ▸ ha)

/-- C4 counterexample: a duplicate-free valid configuration on which
`AddProgram` with an already-present name succeeds yet leaves a duplicate
in the program list, refuting preservation for all four operations. -/
theorem nodup_preservation_counterexample :
    stA.config.Packages.Nodup ∧ stA.config.Programs.Nodup
  ∧ (AddProgram stA "direnv").2 = none
  ∧ ¬ (AddProgram stA "direnv").1.config.Programs.Nodup := by decide

/-- C4 amended: starting from duplicate-free package and program lists,
`AddPackage`, `RemovePackage` and `RemoveProgram` always leave both lists
duplicate-free, and `AddProgram` leaves the package list duplicate-free and
the program list duplicate-free provided the added name was not already
present (with an already-present name it succeeds but duplicates the
entry). -/
theorem nodup_preserved (s : MState) (name : String)
    (hp : s.config.Packages.Nodup) (hq : s.config.Programs.Nodup) :
    ((AddPackage s name).1.config.Packages.Nodup
      ∧ (AddPackage s name).1.config.Programs.Nodup)
  ∧ ((RemovePackage s name).1.config.Packages.Nodup
      ∧ (RemovePackage s name).1.config.Programs.Nodup)
  ∧ ((RemoveProgram s name).1.config.Packages.Nodup
      ∧ (RemoveProgram s name).1.config.Programs.Nodup)
  ∧ ((AddProgram s name).1.config.Packages.Nodup
      ∧ (name ∉ s.config.Programs → (AddProgram s name).1.config.Programs.Nodup)) := by
  refine ⟨?_, ?_, ?_, ?_⟩
  · by_cases h : name ∈ s.config.Packages
    · rw [addPackage_mem s name h]
      exact ⟨hp, hq⟩
    · rw [addPackage_not_mem_config s name h]
      exact ⟨nodup_append_singleton _ _ h hp, hq⟩
  · cases hfi : findIndex name s.config.Packages with
    | none =>
      rw [removePackage_none s name hfi]
      exact ⟨hp, hq⟩
    | some i =>
      rw [removePackage_found_config s name i hfi]
      exact ⟨hp.sublist (List.eraseIdx_sublist _ _), hq⟩
  · cases hfi : findIndex name s.config.Programs with
    | none =>
      rw [removeProgram_none s name hfi]
      exact ⟨hp, hq⟩
    | some i =>
      rw [removeProgram_found_config s name i hfi]
      exact ⟨hp, hq.sublist (List.eraseIdx_sublist _ _)⟩
  · rw [addProgram_config]
    exact ⟨hp, fun h => nodup_append_singleton _ _ h hq⟩

/-- C4 witness: the amended preservation statement evaluated on a concrete
duplicate-free configuration and a fresh name. -/
theorem nodup_preserved_witness :
    ((AddPackage stA "wget").1.config.Packages.Nodup
      ∧ (AddPackage stA "wget").1.config.Programs.Nodup)
  ∧ ((RemovePackage stA "wget").1.config.Packages.Nodup
      ∧ (RemovePackage stA "wget").1.config.Programs.Nodup)
  ∧ ((RemoveProgram stA "wget").1.config.Packages.Nodup
      ∧ (RemoveProgram stA "wget").1.config.Programs.Nodup)
  ∧ ((AddProgram stA "wget").1.config.Packages.Nodup
      ∧ (AddProgram stA "wget").1.config.Programs.Nodup) :=
  ⟨(nodup_preserved stA "wget" (by decide) (by decide)).1,
   (nodup_preserved stA "wget" (by decide) (by decide)).2.1,
   (nodup_preserved stA "wget" (by decide) (by decide)).2.2.1,
   (nodup_preserved stA "wget" (by decide) (by decide)).2.2.2.1,
   (nodup_preserved stA "wget" (by decide) (by decide)).2.2.2.2 (by decide)⟩

/- ### Characterization of the validation engine -/

theorem validateSystems_none_iff (l : List System) :
    validateSystems l = none ↔ ∀ s ∈ l, SystemOK s := by
  induction l with
  | nil => simp [validateSystems]
  | cons sys rest ih =>
    by_cases ha : sys.Arch ∈ architectures
    · have ha' := (isValueInList_iff sys.Arch architectures).mpr ha
      by_cases ho : sys.OS ∈ operatingSystems
      · have ho' := (isValueInList_iff sys.OS operatingSystems).mpr ho
        simp [validateSystems, ha', ho', ih, List.forall_mem_cons, SystemOK, ha, ho]
      · have ho' : isValueInList sys.OS operatingSystems = false :=
          (isValueInList_eq_false_iff _ _).mpr ho
        simp [validateSystems, ha', ho', List.forall_mem_cons, SystemOK, ho]
    · have ha' : isValueInList sys.Arch architectures = false :=
        (isValueInList_eq_false_iff _ _).mpr ha
      simp [validateSystems, ha', List.forall_mem_cons, SystemOK, ha]

theorem validateSystems_invalidArch_iff (l : List System) :
    validateSystems l = some Err.invalidArch ↔
      ∃ pre sys post, l = pre ++ sys :: post ∧ (∀ t ∈ pre, SystemOK t)
        ∧ sys.Arch ∉ architectures := by
  induction l with
  | nil =>
    constructor
    · intro h
      cases h
    · rintro ⟨pre, sys, post, heq, -, -⟩
      cases pre with
      | nil => exact List.noConfusion heq
      | cons p pre' => exact List.noConfusion heq
  | cons sys rest ih =>
    by_cases ha : sys.Arch ∈ architectures
    · have ha' := (isValueInList_iff sys.Arch architectures).mpr ha
      by_cases ho : sys.OS ∈ operatingSystems
      · have ho' := (isValueInList_iff sys.OS operatingSystems).mpr ho
        have hstep : validateSystems (sys :: rest) = validateSystems rest := by
          simp [validateSystems, ha', ho']
        rw [hstep, ih]
        constructor
        · rintro ⟨pre, s, post, heq, hpre, hbad⟩
          refine ⟨sys :: pre, s, post, by rw [heq]; rfl, ?_, hbad⟩
          intro t ht
          rcases List.mem_cons.mp ht with rfl | ht'
          · exact ⟨ha, ho⟩
          · exact hpre t ht'
        · rintro ⟨pre, s, post, heq, hpre, hbad⟩
          cases pre with
          | nil =>
            rw [List.nil_append] at heq
            injection heq with h1 h2
            exact absurd (h1 ▸ ha) hbad
          | cons p pre' =>
            rw [List.cons_append] at heq
            injection heq with h1 h2
            exact ⟨pre', s, post, h2, fun t ht => hpre t (List.mem_cons_of_mem p ht), hbad⟩
      · have ho' : isValueInList sys.OS operatingSystems = false :=
          (isValueInList_eq_false_iff _ _).mpr ho
        have hstep : validateSystems (sys :: rest) = some Err.invalidOS := by
          simp [validateSystems, ha', ho']
        rw [hstep]
        constructor
        · intro h
          exact absurd h (by decide)
        · rintro ⟨pre, s, post, heq, hpre, hbad⟩
          cases pre with
          | nil =>
            rw [List.nil_append] at heq
            injection heq with h1 h2
            exact absurd (h1 ▸ ha) hbad
          | cons p pre' =>
            rw [List.cons_append] at heq
            injection heq with h1 h2
            have hok := hpre p (List.mem_cons_self p pre')
            rw [← h1] at hok
            exact absurd hok.2 ho
    · have ha' : isValueInList sys.Arch architectures = false :=
        (isValueInList_eq_false_iff _ _).mpr ha
      have hstep : validateSystems (sys :: rest) = some Err.invalidArch := by
        simp [validateSystems, ha']
      rw [hstep]
      constructor
      · intro _
        exact ⟨[], sys, rest, rfl, fun t ht => absurd ht (List.not_mem_nil t), ha⟩
      · intro _
        rfl

theorem validateSystems_invalidOS_iff (l : List System) :
    validateSystems l = some Err.invalidOS ↔
      ∃ pre sys post, l = pre ++ sys :: post ∧ (∀ t ∈ pre, SystemOK t)
        ∧ sys.Arch ∈ architectures ∧ sys.OS ∉ operatingSystems := by
  induction l with
  | nil =>
    constructor
    · intro h
      cases h
    · rintro ⟨pre, sys, post, heq, -, -⟩
      cases pre with
      | nil => exact List.noConfusion heq
      | cons p pre' => exact List.noConfusion heq
  | cons sys rest ih =>
    by_cases ha : sys.Arch ∈ architectures
    · have ha' := (isValueInList_iff sys.Arch architectures).mpr ha
      by_cases ho : sys.OS ∈ operatingSystems
      · have ho' := (isValueInList_iff sys.OS operatingSystems).mpr ho
        have hstep : validateSystems (sys :: rest) = validateSystems rest := by
          simp [validateSystems, ha', ho']
        rw [hstep, ih]
        constructor
        · rintro ⟨pre, s, post, heq, hpre, hbad⟩
          refine ⟨sys :: pre, s, post, by rw [heq]; rfl, ?_, hbad⟩
          intro t ht
          rcases List.mem_cons.mp ht with rfl | ht'
          · exact ⟨ha, ho⟩
          · exact hpre t ht'
        · rintro ⟨pre, s, post, heq, hpre, hbad⟩
          cases pre with
          | nil =>
            rw [List.nil_append] at heq
            injection heq with h1 h2
            exact absurd (h1 ▸ ho) hbad.2
          | cons p pre' =>
            rw [List.cons_append] at heq
            injection heq with h1 h2
            exact ⟨pre', s, post, h2, fun t ht => hpre t (List.mem_cons_of_mem p ht), hbad⟩
      · have ho' : isValueInList sys.OS operatingSystems = false :=
          (isValueInList_eq_false_iff _ _).mpr ho
        have hstep : validateSystems (sys :: rest) = some Err.invalidOS := by
          simp [validateSystems, ha', ho']
        rw [hstep]
        constructor
        · intro _
          exact ⟨[], sys, rest, rfl, fun t ht => absurd ht (List.not_mem_nil t), ha, ho⟩
        · intro _
          rfl
    · have ha' : isValueInList sys.Arch architectures = false :=
        (isValueInList_eq_false_iff _ _).mpr ha
      have hstep : validateSystems (sys :: rest) = some Err.invalidArch := by
        simp [validateSystems, ha']
      rw [hstep]
      constructor
      · intro h
        exact absurd h (by decide)
      · rintro ⟨pre, s, post, heq, hpre, hbad⟩
        cases pre with
        | nil =>
          rw [List.nil_append] at heq
          injection heq with h1 h2
          exact absurd (h1 ▸ ha) (fun hmem => ha (h1 ▸ hbad.1))
        | cons p pre' =>
          rw [List.cons_append] at heq
          injection heq with h1 h2
          have hok := hpre p (List.mem_cons_self p pre')
          rw [← h1] at hok
          exact absurd hok.1 ha

theorem validateSystems_cases (l : List System) (e : Err)
    (h : validateSystems l = some e) :
    e = Err.invalidArch ∨ e = Err.invalidOS := by
  induction l with
  | nil => cases h
  | cons sys rest ih =>
    simp only [validateSystems] at h
    split at h
    · exact Or.inl (Option.some.inj h).symm
    · split at h
      · exact Or.inr (Option.some.inj h).symm
      · exact ih h

/-- C1: `Validate` accepts exactly the configurations with non-empty flake
directory, enumerated shell and bling, and enumerated arch/OS in every
system; each specific error is returned exactly when its rule is the first
violated one, in the order flakedir, shell, bling, then per system
(earlier systems first) arch before OS; no aggregation takes place. -/
theorem validate_first_violation (c : Config) :
    (Config.Validate c = none ↔
       c.FlakeDir ≠ "" ∧ c.Shell ∈ shells ∧ c.Bling ∈ blingLevels
         ∧ ∀ s ∈ c.Systems, SystemOK s)
  ∧ (Config.Validate c = some Err.missingFlakeDir ↔ c.FlakeDir = "")
  ∧ (Config.Validate c = some Err.invalidShell ↔ c.FlakeDir ≠ "" ∧ c.Shell ∉ shells)
  ∧ (Config.Validate c = some Err.invalidBling ↔
       c.FlakeDir ≠ "" ∧ c.Shell ∈ shells ∧ c.Bling ∉ blingLevels)
  ∧ (Config.Validate c = some Err.invalidArch ↔
       c.FlakeDir ≠ "" ∧ c.Shell ∈ shells ∧ c.Bling ∈ blingLevels
         ∧ ∃ pre sys post, c.Systems = pre ++ sys :: post ∧ (∀ t ∈ pre, SystemOK t)
             ∧ sys.Arch ∉ architectures)
  ∧ (Config.Validate c = some Err.invalidOS ↔
       c.FlakeDir ≠ "" ∧ c.Shell ∈ shells ∧ c.Bling ∈ blingLevels
         ∧ ∃ pre sys post, c.Systems = pre ++ sys :: post ∧ (∀ t ∈ pre, SystemOK t)
             ∧ sys.Arch ∈ architectures ∧ sys.OS ∉ operatingSystems) := by
  by_cases hf : c.FlakeDir = ""
  · have hv : Config.Validate c = some Err.missingFlakeDir := by
      simp [Config.Validate, beq_iff_eq.mpr hf]
    rw [hv]
    refine ⟨?_, ?_, ?_, ?_, ?_, ?_⟩ <;> simp [hf]
  · have hf' : (c.FlakeDir == "") = false := beq_eq_false_iff_ne.mpr hf
    by_cases hs : c.Shell ∈ shells
    · have hs' := (isValueInList_iff c.Shell shells).mpr hs
      by_cases hb : c.Bling ∈ blingLevels
      · have hb' := (isValueInList_iff c.Bling blingLevels).mpr hb
        have hv : Config.Validate c = validateSystems c.Systems := by
          simp [Config.Validate, hf', hs', hb']
        rw [hv]
        refine ⟨?_, ?_, ?_, ?_, ?_, ?_⟩
        · rw [validateSystems_none_iff]
          simp [hf, hs, hb]
        · constructor
          · intro h
            rcases validateSystems_cases _ _ h with h' | h' <;> exact absurd h' (by decide)
          · intro h
            exact absurd h hf
        · constructor
          · intro h
            rcases validateSystems_cases _ _ h with h' | h' <;> exact absurd h' (by decide)
          · rintro ⟨-, h2⟩
            exact absurd hs h2
        · constructor
          · intro h
            rcases validateSystems_cases _ _ h with h' | h' <;> exact absurd h' (by decide)
          · rintro ⟨-, -, h3⟩
            exact absurd hb h3
        · rw [validateSystems_invalidArch_iff]
          simp [hf, hs, hb]
        · rw [validateSystems_invalidOS_iff]
          simp [hf, hs, hb]
      · have hb' : isValueInList c.Bling blingLevels = false :=
          (isValueInList_eq_false_iff _ _).mpr hb
        have hv : Config.Validate c = some Err.invalidBling := by
          simp [Config.Validate, hf', hs', hb']
        rw [hv]
        refine ⟨?_, ?_, ?_, ?_, ?_, ?_⟩ <;> simp [hf, hs, hb]
    · have hs' : isValueInList c.Shell shells = false :=
        (isValueInList_eq_false_iff _ _).mpr hs
      have hv : Config.Validate c = some Err.invalidShell := by
        simp [Config.Validate, hf', hs']
      rw [hv]
      refine ⟨?_, ?_, ?_, ?_, ?_, ?_⟩ <;> simp [hf, hs]

/-- C1 witness: on a concrete configuration whose shell, bling and system
architecture are all invalid at once, the error returned is the
invalid-shell one, the first violated rule in order. -/
theorem validate_first_violation_witness :
    Config.Validate cfgMulti = some Err.invalidShell :=
  ((validate_first_violation cfgMulti).2.2.1).mpr ⟨by decide, by decide⟩

end Fleek
